import Mathlib

/-!
Shallow embedding of the timer / debounce / throttle helpers of
`examples/Image_slider.ipynb` (ipyleaflet).

The notebook defines, on a single-threaded asyncio event loop:

* `class Timer`: schedules a task that sleeps `timeout` seconds and then
  runs `callback`; `cancel` cancels the underlying task
  (`asyncio.Task.cancel` on a finished or already-cancelled task is a
  no-op).
* `debounce(wait)`: decorator; the closure keeps a `timer` reference,
  each call cancels the previous timer (if any) and schedules a new
  `Timer(wait, call_it)` capturing this call's arguments.
* `throttle(wait)`: decorator; the closure keeps `time_of_last_call`
  (initialised to `0`), `scheduled` (initialised to `False`) and
  `new_args`; each call overwrites `new_args`, and, when not
  `scheduled`, schedules `Timer(max(0, wait - (now - time_of_last_call)),
  call_it)` and sets `scheduled`; `call_it` sets
  `time_of_last_call = time()`, runs `fn(*new_args)`, then clears
  `scheduled`.

Time is modelled as a natural-number clock (`time()` at a scheduled
fire equals the timer's fire time; calls are processed in increasing
time order by the event loop).  Python's `max(0, wait - elapsed)` is
natural-number truncated subtraction.
-/

/-- Lifecycle status of a scheduled asyncio task backing a `Timer`. -/
inductive TStatus
  | pending
  | fired
  | cancelled
  deriving DecidableEq, Repr

/-! ## Standalone `Timer` lifecycle (class `Timer` of the notebook)

A `Timer` is created pending; the event loop attempts the fire exactly
once, when the delay elapses; `cancel` may be called at arbitrary
times.  `Timer.step` is the effect of one such event on the task state;
`invocations` counts executions of `callback`. -/

/-- One observable event in a timer's life: the event loop's single
fire attempt, or a `cancel` call. -/
inductive TimerEv
  | fire
  | cancel
  deriving DecidableEq, Repr

/-- State of one `Timer`: task status plus how many times `callback`
has run. -/
structure TimerSt where
  status : TStatus
  invocations : Nat
  deriving DecidableEq, Repr

/-- Effect of one event on a `Timer`: a fire attempt runs the callback
only if the task is still pending; `cancel` moves a pending task to
cancelled and is a no-op otherwise (as `asyncio.Task.cancel` on a done
task). -/
def Timer.step (s : TimerSt) : TimerEv → TimerSt
  | .fire => if s.status = .pending then ⟨.fired, s.invocations + 1⟩ else s
  | .cancel => if s.status = .pending then ⟨.cancelled, s.invocations⟩ else s

/-- A fresh `Timer`: pending, callback never run. -/
def Timer.init : TimerSt := ⟨.pending, 0⟩

/-- Whole life of one `Timer` with delay `timeout`, given the times of
all `cancel` calls: the loop fires at `timeout`, cancels before the
delay elapses come first, the rest after. -/
def Timer.life (timeout : Nat) (cancels : List Nat) : TimerSt :=
  (((cancels.filter (fun c => decide (c < timeout))).map (fun _ => TimerEv.cancel))
      ++ [TimerEv.fire]
      ++ ((cancels.filter (fun c => decide (timeout ≤ c))).map (fun _ => TimerEv.cancel))).foldl
    Timer.step Timer.init

lemma Timer.step_of_done (s : TimerSt) (e : TimerEv) (h : s.status ≠ .pending) :
    Timer.step s e = s := by
  cases e <;> simp [Timer.step, h]

lemma Timer.foldl_of_done (evs : List TimerEv) (s : TimerSt) (h : s.status ≠ .pending) :
    evs.foldl Timer.step s = s := by
  induction evs with
  | nil => rfl
  | cons e evs ih => simpa [Timer.step_of_done s e h] using ih

lemma Timer.life_cancelled (timeout : Nat) (cancels : List Nat)
    (h : (cancels.filter (fun c => decide (c < timeout))) ≠ []) :
    Timer.life timeout cancels = ⟨.cancelled, 0⟩ := by
  unfold Timer.life
  cases hf : cancels.filter (fun c => decide (c < timeout)) with
  | nil => exact absurd hf h
  | cons c cs =>
    simp only [hf, List.map_cons, List.cons_append, List.foldl_cons]
    have h1 : Timer.step Timer.init TimerEv.cancel = ⟨.cancelled, 0⟩ := rfl
    rw [h1]
    exact Timer.foldl_of_done _ _ (by simp)

lemma Timer.life_fired (timeout : Nat) (cancels : List Nat)
    (h : (cancels.filter (fun c => decide (c < timeout))) = []) :
    Timer.life timeout cancels = ⟨.fired, 1⟩ := by
  unfold Timer.life
  rw [h]
  simp only [List.map_nil, List.nil_append, List.cons_append, List.foldl_cons]
  have h1 : Timer.step Timer.init TimerEv.fire = ⟨.fired, 1⟩ := rfl
  rw [h1]
  exact Timer.foldl_of_done _ _ (by simp)

/-! ## Debouncer (`debounce(wait)` of the notebook)

The closure state is the `timer` nonlocal: a reference to the most
recently created `Timer` (never reset after a fire).  We additionally
log every `Timer` ever created, with its status, so that cancellation
and pendingness can be stated; `timer` is an index into that log.
Each timer stores the arguments captured by its `call_it` closure. -/

/-- One `Timer(wait, call_it)` created by `debounced`: its absolute
fire time, the call arguments captured by `call_it`, and the status of
its asyncio task. -/
structure DTimer (A : Type) where
  fireTime : Nat
  args : A
  status : TStatus
  deriving DecidableEq, Repr

/-- Closure state of one debounced wrapper: the log of all timers ever
created and the `timer` nonlocal (index of the most recent one, `none`
before the first call). -/
structure DState (A : Type) where
  timers : List (DTimer A)
  timer : Option Nat
  deriving DecidableEq, Repr

/-- Fresh wrapper: no timer yet (`timer = None`). -/
def DState.init (A : Type) : DState A := ⟨[], none⟩

/-- Effect of `timer.cancel()` on the timer at index `i` of the log: a pending
task becomes cancelled; a done (fired or cancelled) task is unchanged
(`asyncio.Task.cancel` no-op). -/
def cancelIdx {A : Type} (ts : List (DTimer A)) (i : Nat) : List (DTimer A) :=
  match ts.get? i with
  | some tm => if tm.status = .pending then ts.set i { tm with status := .cancelled } else ts
  | none => ts

/-- The body of `debounced(*args, **kwargs)` executed at time `t`:
if `timer is not None`, cancel it; then `timer = Timer(wait, call_it)`
with this call's arguments. -/
def debounced {A : Type} (wait t : Nat) (a : A) (s : DState A) : DState A :=
  let ts :=
    match s.timer with
    | some i => cancelIdx s.timers i
    | none => s.timers
  ⟨ts ++ [⟨t + wait, a, .pending⟩], some ts.length⟩

/-- The event loop reaching time `t`: every still-pending timer whose
fire time has arrived runs its `call_it` (which only calls `fn` with
the captured arguments; the closure state is untouched).  Returns the
new state and the executions of `fn` as (time, arguments) pairs. -/
def dFireDue {A : Type} (t : Nat) (s : DState A) : DState A × List (Nat × A) :=
  (⟨s.timers.map
      (fun tm => if tm.status = .pending ∧ tm.fireTime ≤ t then { tm with status := .fired } else tm),
    s.timer⟩,
   (s.timers.filter (fun tm => decide (tm.status = .pending ∧ tm.fireTime ≤ t))).map
     (fun tm => (tm.fireTime, tm.args)))

/-- The event loop running to quiescence after the last call: every
still-pending timer fires at its own fire time. -/
def dDrain {A : Type} (s : DState A) : DState A × List (Nat × A) :=
  (⟨s.timers.map (fun tm => if tm.status = .pending then { tm with status := .fired } else tm),
    s.timer⟩,
   (s.timers.filter (fun tm => decide (tm.status = .pending))).map
     (fun tm => (tm.fireTime, tm.args)))

/-- Run a debounced wrapper from state `s` over a time-ordered list of
calls `(t, args)`: before each call the loop fires what is due, then
the call runs; after the last call the loop drains.  Returns the final
state and all executions of `fn`. -/
def dRunFrom {A : Type} (wait : Nat) (s : DState A) : List (Nat × A) → DState A × List (Nat × A)
  | [] => dDrain s
  | (t, a) :: rest =>
    let p := dFireDue t s
    let q := dRunFrom wait (debounced wait t a p.1) rest
    (q.1, p.2 ++ q.2)

/-- Run a fresh debounced wrapper over a list of calls. -/
def dRun {A : Type} (wait : Nat) (calls : List (Nat × A)) : DState A × List (Nat × A) :=
  dRunFrom wait (DState.init A) calls

/-- The one live (pending) timer a debounced wrapper can have: its fire
time and captured arguments, read off the `timer` reference. -/
def activeObs {A : Type} (s : DState A) : Option (Nat × A) :=
  match s.timer with
  | none => none
  | some i =>
    match s.timers.get? i with
    | some tm => if tm.status = .pending then some (tm.fireTime, tm.args) else none
    | none => none

/-- Reachable-state invariant of the debouncer: either no timer was
ever created, or the log splits as `ts ++ [tm]` with `timer` pointing
at the last entry and every earlier timer dead (fired or cancelled). -/
def DInv {A : Type} (s : DState A) : Prop :=
  (s.timer = none ∧ s.timers = []) ∨
    (∃ ts tm, s.timers = ts ++ [tm] ∧ s.timer = some ts.length ∧
      ∀ x ∈ ts, x.status ≠ TStatus.pending)

/-- Number of pending timers in the log. -/
def pendingCount {A : Type} (s : DState A) : Nat :=
  (s.timers.filter (fun tm => decide (tm.status = .pending))).length

/-! ## Abstract view of the debouncer

Since (on reachable states) at most one timer is pending and the
`timer` reference points at it, the wrapper's behaviour is determined
by the pending timer's fire time and arguments.  `aFire`/`aRun` is
that abstract machine; `dRunFrom` refines it. -/

/-- Abstract fire step at time `t`: the pending entry fires iff its
fire time has arrived. -/
def aFire {A : Type} (t : Nat) : Option (Nat × A) → Option (Nat × A) × List (Nat × A)
  | some pa => if pa.1 ≤ t then (none, [pa]) else (some pa, [])
  | none => (none, [])

/-- Abstract debounced run: each call first lets due work fire, then
replaces the pending entry by `(t + wait, a)`; at the end the pending
entry (if any) fires. -/
def aRun {A : Type} (wait : Nat) : List (Nat × A) → Option (Nat × A) → List (Nat × A)
  | [], o => o.toList
  | (t, a) :: rest, o => (aFire t o).2 ++ aRun wait rest (some (t + wait, a))

lemma get_concat_length {A : Type} (ts : List (DTimer A)) (tm : DTimer A) :
    (ts ++ [tm]).get? ts.length = some tm := by
  induction ts with
  | nil => rfl
  | cons x ts ih => simp [ih]

lemma set_concat_length {A : Type} (ts : List (DTimer A)) (tm tm' : DTimer A) :
    (ts ++ [tm]).set ts.length tm' = ts ++ [tm'] := by
  induction ts with
  | nil => rfl
  | cons x ts ih => simp [List.set, ih]

lemma map_id_of_dead {A : Type} (g : DTimer A → DTimer A)
    (hg : ∀ x, x.status ≠ .pending → g x = x) (ts : List (DTimer A))
    (hdead : ∀ x ∈ ts, x.status ≠ TStatus.pending) : ts.map g = ts := by
  induction ts with
  | nil => rfl
  | cons x ts ih =>
    simp only [List.map_cons, hg x (hdead x (by simp))]
    rw [ih (fun y hy => hdead y (by simp [hy]))]

lemma filter_false_of_dead {A : Type} (p : DTimer A → Bool)
    (hp : ∀ x, x.status ≠ .pending → p x = false) (ts : List (DTimer A))
    (hdead : ∀ x ∈ ts, x.status ≠ TStatus.pending) : ts.filter p = [] := by
  induction ts with
  | nil => rfl
  | cons x ts ih =>
    simp only [List.filter_cons, hp x (hdead x (by simp))]
    exact ih (fun y hy => hdead y (by simp [hy]))

lemma DInv_init (A : Type) : DInv (DState.init A) := Or.inl ⟨rfl, rfl⟩

lemma activeObs_init (A : Type) : activeObs (DState.init A) = none := rfl

lemma debounced_DInv {A : Type} (wait t : Nat) (a : A) (s : DState A) (h : DInv s) :
    DInv (debounced wait t a s) := by
  rcases h with ⟨h1, h2⟩ | ⟨ts, tm, hts, hti, hdead⟩
  · exact Or.inr ⟨[], ⟨t + wait, a, .pending⟩, by simp [debounced, h1, h2], by simp [debounced, h1, h2], by simp⟩
  · by_cases hp : tm.status = TStatus.pending
    · refine Or.inr ⟨ts ++ [{ tm with status := .cancelled }], ⟨t + wait, a, .pending⟩, ?_, ?_, ?_⟩
      · simp [debounced, hti, hts, cancelIdx, get_concat_length, hp, set_concat_length]
      · simp [debounced, hti, hts, cancelIdx, get_concat_length, hp, set_concat_length]
      · intro x hx
        rcases List.mem_append.1 hx with hx | hx
        · exact hdead x hx
        · simp at hx
          simp [hx]
    · refine Or.inr ⟨ts ++ [tm], ⟨t + wait, a, .pending⟩, ?_, ?_, ?_⟩
      · simp [debounced, hti, hts, cancelIdx, get_concat_length, hp]
      · simp [debounced, hti, hts, cancelIdx, get_concat_length, hp]
      · intro x hx
        rcases List.mem_append.1 hx with hx | hx
        · exact hdead x hx
        · simp at hx
          simp [hx, hp]

lemma debounced_activeObs {A : Type} (wait t : Nat) (a : A) (s : DState A) :
    activeObs (debounced wait t a s) = some (t + wait, a) := by
  simp [debounced, activeObs, get_concat_length]

lemma dFireDue_DInv {A : Type} (t : Nat) (s : DState A) (h : DInv s) :
    DInv (dFireDue t s).1 := by
  rcases h with ⟨h1, h2⟩ | ⟨ts, tm, hts, hti, hdead⟩
  · exact Or.inl ⟨h1, by simp [dFireDue, h2]⟩
  · have hmap : ∀ x : DTimer A, x.status ≠ TStatus.pending →
        (if x.status = TStatus.pending ∧ x.fireTime ≤ t then { x with status := .fired } else x) = x := by
      intro x hx
      rw [if_neg (fun hc => hx hc.1)]
    refine Or.inr ⟨ts, if tm.status = TStatus.pending ∧ tm.fireTime ≤ t then { tm with status := .fired } else tm, ?_, ?_, hdead⟩
    · simp only [dFireDue, hts, List.map_append, List.map_cons, List.map_nil]
      rw [map_id_of_dead _ hmap ts hdead]
    · simpa [dFireDue] using hti

lemma dFireDue_obs {A : Type} (t : Nat) (s : DState A) (h : DInv s) :
    activeObs (dFireDue t s).1 = (aFire t (activeObs s)).1 := by
  rcases h with ⟨h1, h2⟩ | ⟨ts, tm, hts, hti, hdead⟩
  · simp [dFireDue, activeObs, aFire, h1, h2]
  · have hmap : ∀ x : DTimer A, x.status ≠ TStatus.pending →
        (if x.status = TStatus.pending ∧ x.fireTime ≤ t then { x with status := .fired } else x) = x := by
      intro x hx
      rw [if_neg (fun hc => hx hc.1)]
    have hobs : activeObs s = if tm.status = TStatus.pending then some (tm.fireTime, tm.args) else none := by
      simp [activeObs, hti, hts, get_concat_length]
    simp only [dFireDue, activeObs, hts, hti, List.map_append, List.map_cons, List.map_nil]
    rw [map_id_of_dead _ hmap ts hdead]
    by_cases hp : tm.status = TStatus.pending
    · by_cases hle : tm.fireTime ≤ t
      · simp [get_concat_length, hobs, hp, hle, aFire]
      · simp [get_concat_length, hobs, hp, hle, aFire]
    · simp [get_concat_length, hobs, hp, aFire]

lemma dFireDue_execs {A : Type} (t : Nat) (s : DState A) (h : DInv s) :
    (dFireDue t s).2 = (aFire t (activeObs s)).2 := by
  rcases h with ⟨h1, h2⟩ | ⟨ts, tm, hts, hti, hdead⟩
  · simp [dFireDue, activeObs, aFire, h1, h2]
  · have hfilter : ∀ x : DTimer A, x.status ≠ TStatus.pending →
        (decide (x.status = TStatus.pending ∧ x.fireTime ≤ t)) = false := by
      intro x hx
      simp [hx]
    have hobs : activeObs s = if tm.status = TStatus.pending then some (tm.fireTime, tm.args) else none := by
      simp [activeObs, hti, hts, get_concat_length]
    simp only [dFireDue, hts, List.filter_append]
    rw [filter_false_of_dead _ hfilter ts hdead]
    by_cases hp : tm.status = TStatus.pending
    · by_cases hle : tm.fireTime ≤ t
      · simp [hobs, hp, hle, aFire, List.filter]
      · simp [hobs, hp, hle, aFire, List.filter]
    · simp [hobs, hp, aFire, List.filter]

lemma dDrain_execs {A : Type} (s : DState A) (h : DInv s) :
    (dDrain s).2 = (activeObs s).toList := by
  rcases h with ⟨h1, h2⟩ | ⟨ts, tm, hts, hti, hdead⟩
  · simp [dDrain, activeObs, h1, h2]
  · have hfilter : ∀ x : DTimer A, x.status ≠ TStatus.pending →
        (decide (x.status = TStatus.pending)) = false := by
      intro x hx
      simp [hx]
    have hobs : activeObs s = if tm.status = TStatus.pending then some (tm.fireTime, tm.args) else none := by
      simp [activeObs, hti, hts, get_concat_length]
    simp only [dDrain, hts, List.filter_append]
    rw [filter_false_of_dead _ hfilter ts hdead]
    by_cases hp : tm.status = TStatus.pending
    · simp [hobs, hp, List.filter]
    · simp [hobs, hp, List.filter]

lemma dRunFrom_execs {A : Type} (wait : Nat) (calls : List (Nat × A)) :
    ∀ s : DState A, DInv s → (dRunFrom wait s calls).2 = aRun wait calls (activeObs s) := by
  induction calls with
  | nil => intro s h; simpa [dRunFrom, aRun] using dDrain_execs s h
  | cons c rest ih =>
    intro s h
    obtain ⟨t, a⟩ := c
    have h1 : DInv (dFireDue t s).1 := dFireDue_DInv t s h
    have h2 : DInv (debounced wait t a (dFireDue t s).1) := debounced_DInv wait t a _ h1
    simp only [dRunFrom, aRun]
    rw [dFireDue_execs t s h, ih _ h2, debounced_activeObs]

/-- A burst after a call at time `p`: each subsequent call arrives no
earlier than the previous one and strictly less than `wait` after it. -/
def burstB {A : Type} (wait : Nat) : Nat → List (Nat × A) → Bool
  | _, [] => true
  | p, (t, _) :: rest => (decide (p ≤ t) && decide (t < p + wait)) && burstB wait t rest

/-- Last call of a nonempty call list, written head-and-tail. -/
def lastCall {A : Type} : (Nat × A) → List (Nat × A) → (Nat × A)
  | c, [] => c
  | _, c :: rest => lastCall c rest

lemma aRun_burst {A : Type} (wait : Nat) :
    ∀ (rest : List (Nat × A)) (p : Nat) (pa : A), burstB wait p rest = true →
      aRun wait rest (some (p + wait, pa)) =
        [((lastCall (p, pa) rest).1 + wait, (lastCall (p, pa) rest).2)] := by
  intro rest
  induction rest with
  | nil => intro p pa _; simp [aRun, lastCall, Option.toList]
  | cons c rest ih =>
    intro p pa hb
    obtain ⟨t, a⟩ := c
    simp only [burstB, Bool.and_eq_true, decide_eq_true_eq] at hb
    obtain ⟨⟨hpt, hlt⟩, hrest⟩ := hb
    have hnle : ¬ (p + wait ≤ t) := by omega
    simp only [aRun, aFire, lastCall, if_neg hnle, List.nil_append]
    exact ih t a hrest

/-- C1 — Debounce collapse: for every burst of calls (each arriving
strictly less than `wait` after the previous one), `fn` executes
exactly once, `wait` after the last call of the burst, with the
arguments of that last call. -/
theorem debounce_collapse {A : Type} (wait t0 : Nat) (a0 : A) (rest : List (Nat × A))
    (hb : burstB wait t0 rest = true) :
    (dRun wait ((t0, a0) :: rest)).2 =
      [((lastCall (t0, a0) rest).1 + wait, (lastCall (t0, a0) rest).2)] := by
  unfold dRun
  rw [dRunFrom_execs wait ((t0, a0) :: rest) (DState.init A) (DInv_init A), activeObs_init]
  simp only [aRun, aFire, List.nil_append]
  exact aRun_burst wait rest t0 a0 hb

/-- C1 witness: calls at 0, 50, 100 with `wait = 200` collapse to one
execution at time 300 with the arguments of the call at 100. -/
theorem debounce_collapse_witness :
    (dRun 200 [(0, 7), (50, 8), (100, 9)]).2 = [(300, 9)] :=
  debounce_collapse 200 0 7 [(50, 8), (100, 9)] (by decide)

/-- C7 — Debounce isolation: two calls separated by at least `wait`
produce two executions, each `wait` after its call, each with that
call's arguments. -/
theorem debounce_isolation {A : Type} (wait t1 t2 : Nat) (a1 a2 : A) (h : t1 + wait ≤ t2) :
    (dRun wait [(t1, a1), (t2, a2)]).2 = [(t1 + wait, a1), (t2 + wait, a2)] := by
  unfold dRun
  rw [dRunFrom_execs wait [(t1, a1), (t2, a2)] (DState.init A) (DInv_init A), activeObs_init]
  simp [aRun, aFire, h, Option.toList]

/-- C7 witness: calls at 0 and 300 with `wait = 200` give executions
at 200 (first call's arguments) and 500 (second call's arguments). -/
theorem debounce_isolation_witness :
    (dRun 200 [(0, 7), (300, 9)]).2 = [(200, 7), (500, 9)] :=
  debounce_isolation 200 0 300 7 9 (by decide)

lemma debounced_shape {A : Type} (wait t : Nat) (a : A) (s : DState A) (h : DInv s) :
    ∃ ts', debounced wait t a s = ⟨ts' ++ [⟨t + wait, a, .pending⟩], some ts'.length⟩ ∧
      ∀ x ∈ ts', x.status ≠ TStatus.pending := by
  rcases h with ⟨h1, h2⟩ | ⟨ts, tm, hts, hti, hdead⟩
  · exact ⟨[], by simp [debounced, h1, h2], by simp⟩
  · by_cases hp : tm.status = TStatus.pending
    · refine ⟨ts ++ [{ tm with status := .cancelled }], ?_, ?_⟩
      · simp [debounced, hti, hts, cancelIdx, get_concat_length, hp, set_concat_length]
      · intro x hx
        rcases List.mem_append.1 hx with hx | hx
        · exact hdead x hx
        · simp at hx
          simp [hx]
    · refine ⟨ts ++ [tm], ?_, ?_⟩
      · simp [debounced, hti, hts, cancelIdx, get_concat_length, hp]
      · intro x hx
        rcases List.mem_append.1 hx with hx | hx
        · exact hdead x hx
        · simp at hx
          simp [hx, hp]

lemma pendingCount_le_one {A : Type} (s : DState A) (h : DInv s) : pendingCount s ≤ 1 := by
  rcases h with ⟨h1, h2⟩ | ⟨ts, tm, hts, hti, hdead⟩
  · simp [pendingCount, h2]
  · have hfilter : ∀ x : DTimer A, x.status ≠ TStatus.pending →
        (decide (x.status = TStatus.pending)) = false := by
      intro x hx
      simp [hx]
    simp only [pendingCount, hts, List.filter_append]
    rw [filter_false_of_dead _ hfilter ts hdead]
    by_cases hp : tm.status = TStatus.pending
    · simp [List.filter, hp]
    · simp [List.filter, hp]

lemma pendingCount_debounced {A : Type} (wait t : Nat) (a : A) (s : DState A) (h : DInv s) :
    pendingCount (debounced wait t a s) = 1 := by
  obtain ⟨ts', hshape, hdead⟩ := debounced_shape wait t a s h
  have hfilter : ∀ x : DTimer A, x.status ≠ TStatus.pending →
      (decide (x.status = TStatus.pending)) = false := by
    intro x hx
    simp [hx]
  rw [hshape]
  simp only [pendingCount, List.filter_append]
  rw [filter_false_of_dead _ hfilter ts' hdead]
  simp [List.filter]

lemma cancelIdx_DInv {A : Type} (s : DState A) (i : Nat) (hi : s.timer = some i) (h : DInv s) :
    DInv (⟨cancelIdx s.timers i, s.timer⟩ : DState A) := by
  rcases h with ⟨h1, h2⟩ | ⟨ts, tm, hts, hti, hdead⟩
  · rw [h1] at hi
    cases hi
  · have hieq : i = ts.length := by
      rw [hti] at hi
      exact (Option.some_inj.1 hi).symm
    subst hieq
    by_cases hp : tm.status = TStatus.pending
    · refine Or.inr ⟨ts, { tm with status := .cancelled }, ?_, hti, hdead⟩
      simp [hts, cancelIdx, get_concat_length, hp, set_concat_length]
    · refine Or.inr ⟨ts, tm, ?_, hti, hdead⟩
      simp [hts, cancelIdx, get_concat_length, hp]

/-- C6 — Debouncer single-pending-timer invariant: the invariant `DInv`
(the `timer` reference points at the most recently created timer and
all earlier timers are dead) holds initially, is preserved by a call
(`debounced`), by the event loop firing due timers, and by cancelling
the referenced timer; it bounds the pending timers by one; and right
after any call on a reachable state exactly one timer (the newly
scheduled one) is pending, so the call cancelled any previously
pending timer before scheduling. -/
theorem debounce_invariant {A : Type} :
    DInv (DState.init A) ∧
    (∀ (wait t : Nat) (a : A) (s : DState A), DInv s → DInv (debounced wait t a s)) ∧
    (∀ (t : Nat) (s : DState A), DInv s → DInv (dFireDue t s).1) ∧
    (∀ (s : DState A) (i : Nat), s.timer = some i → DInv s →
      DInv (⟨cancelIdx s.timers i, s.timer⟩ : DState A)) ∧
    (∀ s : DState A, DInv s → pendingCount s ≤ 1) ∧
    (∀ (wait t : Nat) (a : A) (s : DState A), DInv s → pendingCount (debounced wait t a s) = 1) :=
  ⟨DInv_init A,
   fun wait t a s h => debounced_DInv wait t a s h,
   fun t s h => dFireDue_DInv t s h,
   fun s i hi h => cancelIdx_DInv s i hi h,
   fun s h => pendingCount_le_one s h,
   fun wait t a s h => pendingCount_debounced wait t a s h⟩

/-- C6 witness: on a concrete reachable state (fresh wrapper, one call
at time 0 with `wait = 200`), the invariant and the pending-timer
count are as stated. -/
theorem debounce_invariant_witness :
    DInv (debounced 200 0 7 (DState.init Nat)) ∧
    pendingCount (debounced 200 0 7 (DState.init Nat)) = 1 :=
  ⟨debounce_invariant.2.1 200 0 7 (DState.init Nat) debounce_invariant.1,
   debounce_invariant.2.2.2.2.2 200 0 7 (DState.init Nat) debounce_invariant.1⟩

/-- A fire at time `t` in which `fn` raises: `call_it` has nothing
after `fn(*args)`, so the closure state changes exactly as in a normal
fire (the task becomes done); only the execution of `fn` is lost. -/
def dFireDueExn {A : Type} (t : Nat) (s : DState A) : DState A :=
  ⟨s.timers.map
      (fun tm => if tm.status = .pending ∧ tm.fireTime ≤ t then { tm with status := .fired } else tm),
    s.timer⟩

/-- C10 — Debouncer survives a callback failure: a fire in which `fn`
raises leaves the wrapper in exactly the state of a normal fire; the
retained reference to a now-done timer is harmless since cancelling a
non-pending timer changes nothing; and from any reachable state with
no pending timer, every subsequent call sequence produces exactly the
executions of a fresh wrapper. -/
theorem debounce_exception_recovery {A : Type} :
    (∀ (t : Nat) (s : DState A), dFireDueExn t s = (dFireDue t s).1) ∧
    (∀ (s : DState A) (i : Nat) (tm : DTimer A), s.timers.get? i = some tm →
      tm.status ≠ TStatus.pending → cancelIdx s.timers i = s.timers) ∧
    (∀ (wait : Nat) (calls : List (Nat × A)) (s : DState A), DInv s → activeObs s = none →
      (dRunFrom wait s calls).2 = (dRun wait calls).2) := by
  refine ⟨fun t s => rfl, ?_, ?_⟩
  · intro s i tm hget hp
    rw [List.get?_eq_getElem?] at hget
    simp [cancelIdx, hget, hp]
  · intro wait calls s h hobs
    rw [dRunFrom_execs wait calls s h, hobs]
    unfold dRun
    rw [dRunFrom_execs wait calls (DState.init A) (DInv_init A), activeObs_init]

/-- C10 witness: from the state left by an exception-raising fire of
the first call's timer (one fired timer, still referenced), a call at
300 behaves exactly as on a fresh wrapper. -/
theorem debounce_exception_recovery_witness :
    (dRunFrom 200 (⟨[⟨200, 7, .fired⟩], some 0⟩ : DState Nat) [(300, 9)]).2 =
      (dRun 200 [(300, 9)]).2 :=
  debounce_exception_recovery.2.2 200 [(300, 9)] ⟨[⟨200, 7, .fired⟩], some 0⟩
    (Or.inr ⟨[], ⟨200, 7, .fired⟩, rfl, rfl, by simp⟩) rfl

/-- C5 — Deferred-timer cancel semantics: a cancel arriving before the
delay elapses means the callback never runs (zero invocations over the
whole life); if no cancel arrives in time the callback runs exactly
once, and later or repeated cancels change nothing; cancelling a
non-pending (already fired or already cancelled) timer is a no-op. -/
theorem timer_cancel_semantics :
    (∀ (timeout : Nat) (cancels : List Nat), (∃ c ∈ cancels, c < timeout) →
      (Timer.life timeout cancels).invocations = 0) ∧
    (∀ (timeout : Nat) (cancels : List Nat), (∀ c ∈ cancels, timeout ≤ c) →
      (Timer.life timeout cancels).invocations = 1) ∧
    (∀ s : TimerSt, s.status ≠ TStatus.pending → Timer.step s TimerEv.cancel = s) := by
  refine ⟨?_, ?_, ?_⟩
  · intro timeout cancels ⟨c, hc, hlt⟩
    have hne : cancels.filter (fun c => decide (c < timeout)) ≠ [] := by
      refine List.ne_nil_of_mem (a := c) ?_
      rw [List.mem_filter]
      exact ⟨hc, by simpa using hlt⟩
    rw [Timer.life_cancelled timeout cancels hne]
  · intro timeout cancels hall
    have hnil : cancels.filter (fun c => decide (c < timeout)) = [] := by
      rw [List.filter_eq_nil_iff]
      intro c hc
      simpa using hall c hc
    rw [Timer.life_fired timeout cancels hnil]
  · intro s hs
    exact Timer.step_of_done s TimerEv.cancel hs

/-- C5 witness: a timer with delay 100 cancelled at 50 never runs its
callback; one cancelled only at 150 and 200 runs it exactly once; and
cancelling an already-fired timer changes nothing. -/
theorem timer_cancel_semantics_witness :
    (Timer.life 100 [50]).invocations = 0 ∧
    (Timer.life 100 [150, 200]).invocations = 1 ∧
    Timer.step ⟨.fired, 1⟩ TimerEv.cancel = ⟨.fired, 1⟩ :=
  ⟨timer_cancel_semantics.1 100 [50] ⟨50, by simp, by decide⟩,
   timer_cancel_semantics.2.1 100 [150, 200] (by decide),
   timer_cancel_semantics.2.2 ⟨.fired, 1⟩ (by decide)⟩

/-! ## Throttler (`throttle(wait)` of the notebook)

Closure state: `time_of_last_call` (initially `0`), `scheduled`
(initially `False`), `new_args` (initially `None`), plus the log of all
timers created.  A throttled timer's `call_it` reads the stored
arguments at fire time, so timers store no arguments. -/

/-- One `Timer(new_wait, call_it)` created by `throttled`. -/
structure TTimer where
  fireTime : Nat
  status : TStatus
  deriving DecidableEq, Repr

/-- Closure state of one throttled wrapper. -/
structure TState (A : Type) where
  time_of_last_call : Nat
  scheduled : Bool
  new_args : Option A
  timers : List TTimer
  deriving DecidableEq, Repr

/-- Fresh wrapper: `time_of_last_call = 0`, `scheduled = False`,
`new_args = None`, no timers. -/
def TState.init (A : Type) : TState A := ⟨0, false, none, []⟩

/-- The quantity `new_wait = max(0, wait - time_since_last_call)` of `throttled`,
as truncated subtraction on naturals. -/
def newWait (wait elapsed : Nat) : Nat := wait - elapsed

/-- The body of `throttled(*args, **kwargs)` executed at time `t`:
compute `time_since_last_call = time() - time_of_last_call`, store the
latest arguments, and, only when not `scheduled`, create
`Timer(new_wait, call_it)` and set `scheduled = True`. -/
def throttled {A : Type} (wait t : Nat) (a : A) (s : TState A) : TState A :=
  let time_since_last_call := t - s.time_of_last_call
  let s1 := { s with new_args := some a }
  if s1.scheduled then s1
  else
    { s1 with
      timers := s1.timers ++ [⟨t + newWait wait time_since_last_call, .pending⟩],
      scheduled := true }

/-- The throttler's `call_it`, run when the timer at index `i` fires
(only a pending timer can fire): set `time_of_last_call = time()`, run
`fn(*new_args, **new_kwargs)` with the arguments stored at fire time,
then set `scheduled = False`.  When `ok` is false, `fn` raises: the
task still completes (so the timer is done), `time_of_last_call` has
already been set, but the line `scheduled = False` after `fn` never
runs and no execution is produced. -/
def call_it {A : Type} (ok : Bool) (i : Nat) (s : TState A) : TState A × List (Nat × Option A) :=
  match s.timers.get? i with
  | some tm =>
    if tm.status = .pending then
      ({ s with
          timers := s.timers.set i ⟨tm.fireTime, .fired⟩,
          time_of_last_call := tm.fireTime,
          scheduled := if ok then false else s.scheduled },
       if ok then [(tm.fireTime, s.new_args)] else [])
    else (s, [])
  | none => (s, [])

/-- Index of the first timer satisfying `p`, if any. -/
def firstIdxP (p : TTimer → Bool) : List TTimer → Option Nat
  | [] => none
  | tm :: ts => if p tm then some 0 else (firstIdxP p ts).map (· + 1)

/-- Fire, one at a time and in creation order, every pending timer
whose fire time has arrived by time `t` (fuelled recursion; the fuel
`s.timers.length` always suffices since firing creates no timer). -/
def tFireDueFuel {A : Type} : Nat → Nat → TState A → TState A × List (Nat × Option A)
  | 0, _, s => (s, [])
  | fuel + 1, t, s =>
    match firstIdxP (fun tm => decide (tm.status = .pending ∧ tm.fireTime ≤ t)) s.timers with
    | some i =>
      let p := call_it true i s
      let q := tFireDueFuel fuel t p.1
      (q.1, p.2 ++ q.2)
    | none => (s, [])

/-- The event loop reaching time `t` for a throttled wrapper. -/
def tFireDue {A : Type} (t : Nat) (s : TState A) : TState A × List (Nat × Option A) :=
  tFireDueFuel s.timers.length t s

/-- The event loop running to quiescence after the last call: every
pending timer fires, at its own fire time. -/
def tDrainFuel {A : Type} : Nat → TState A → TState A × List (Nat × Option A)
  | 0, s => (s, [])
  | fuel + 1, s =>
    match firstIdxP (fun tm => decide (tm.status = .pending)) s.timers with
    | some i =>
      let p := call_it true i s
      let q := tDrainFuel fuel p.1
      (q.1, p.2 ++ q.2)
    | none => (s, [])

/-- Drain a throttled wrapper's pending timers. -/
def tDrain {A : Type} (s : TState A) : TState A × List (Nat × Option A) :=
  tDrainFuel s.timers.length s

/-- Run a throttled wrapper from state `s` over a time-ordered list of
calls `(t, args)`: before each call the loop fires what is due, then
the call runs; after the last call the loop drains. -/
def tRunFrom {A : Type} (wait : Nat) (s : TState A) : List (Nat × A) → TState A × List (Nat × Option A)
  | [] => tDrain s
  | (t, a) :: rest =>
    let p := tFireDue t s
    let q := tRunFrom wait (throttled wait t a p.1) rest
    (q.1, p.2 ++ q.2)

/-- Run a fresh throttled wrapper over a list of calls. -/
def tRun {A : Type} (wait : Nat) (calls : List (Nat × A)) : TState A × List (Nat × Option A) :=
  tRunFrom wait (TState.init A) calls

/-- C2 counterexample — the claim "the computed remaining delay equals
the full wait on the very first call" fails: with `wait = 100` and the
first call at clock time 200 (and `time_of_last_call` still `0`), the
elapsed time is `200`, the computed delay is `0`, not `100`, and the
timer is scheduled to fire immediately at 200, not at 300. -/
theorem throttle_first_call_cex :
    newWait 100 (200 - (TState.init Nat).time_of_last_call) = 0 ∧
    (throttled 100 200 7 (TState.init Nat)).timers = [⟨200, .pending⟩] ∧
    newWait 100 (200 - (TState.init Nat).time_of_last_call) ≠ 100 := by
  decide

/-- C2 (amended) — Throttle first-call delay: on the very first call,
at clock time `t`, the computed delay is `max(0, wait - (t - 0))`, so
the scheduled fire is at `max wait t`; the delay equals the full
`wait` exactly when the first call happens at clock time 0 (or `wait`
is 0), since `time_of_last_call = 0` denotes the clock origin, not the
call instant. -/
theorem throttle_first_call_delay {A : Type} (wait t : Nat) (a : A) :
    (throttled wait t a (TState.init A)).timers = [⟨t + newWait wait t, .pending⟩] ∧
    (throttled wait t a (TState.init A)).scheduled = true ∧
    t + newWait wait t = max wait t ∧
    (newWait wait t = wait ↔ t = 0 ∨ wait = 0) := by
  refine ⟨?_, ?_, ?_, ?_⟩
  · simp [throttled, TState.init]
  · simp [throttled, TState.init]
  · unfold newWait
    omega
  · unfold newWait
    omega

/-- C3 — Throttle coalescing and latest arguments: a call while
`scheduled` is true changes only the stored latest arguments (no new
timer, no flag change); and when a pending timer fires, `fn` receives
the arguments stored at fire time. -/
theorem throttle_coalesce {A : Type} :
    (∀ (wait t : Nat) (a : A) (s : TState A), s.scheduled = true →
      throttled wait t a s = { s with new_args := some a }) ∧
    (∀ (i : Nat) (s : TState A) (tm : TTimer), s.timers.get? i = some tm →
      tm.status = TStatus.pending →
      (call_it true i s).2 = [(tm.fireTime, s.new_args)]) := by
  constructor
  · intro wait t a s hs
    simp [throttled, hs]
  · intro i s tm hget hp
    rw [List.get?_eq_getElem?] at hget
    simp [call_it, hget, hp]

/-- C3 witness: with a fire pending at 100 and stored arguments 5, a
call at 10 with argument 7 only overwrites the stored arguments; the
subsequent fire delivers 7 (the arguments at fire time, not those that
caused the scheduling). -/
theorem throttle_coalesce_witness :
    throttled 100 10 7 (⟨0, true, some 5, [⟨100, .pending⟩]⟩ : TState Nat) =
      ⟨0, true, some 7, [⟨100, .pending⟩]⟩ ∧
    (call_it true 0 (⟨0, true, some 7, [⟨100, .pending⟩]⟩ : TState Nat)).2 = [(100, some 7)] :=
  ⟨throttle_coalesce.1 100 10 7 _ rfl, throttle_coalesce.2 0 _ ⟨100, .pending⟩ rfl rfl⟩

/-- C4 counterexample — for calls at 0, 10, 300 with `wait = 100`, the
first fire is at 100 with the arguments of the call at 10, as claimed,
but the call at 300 computes delay `max(0, 100 - (300 - 100)) = 0` and
so fires immediately at 300, not at 400. -/
theorem throttle_trace_cex :
    (tRun 100 [(0, 1), (10, 2), (300, 3)]).2 = [(100, some 2), (300, some 3)] ∧
    (tRun 100 [(0, 1), (10, 2), (300, 3)]).2 ≠ [(100, some 2), (400, some 3)] := by
  decide

set_option maxHeartbeats 1000000 in
/-- C4 (amended) — Throttle leading-coalesce trace: calls at 0, 10,
300 with `wait = 100` give a fire at 100 with the arguments of the
call at 10 (which overwrote the stored arguments before the fire), and
the call at 300 — arriving after `scheduled` was reset — schedules a
new timer with remaining delay 0, which fires at 300 with that call's
arguments. -/
theorem throttle_trace_amended {A : Type} (a b c : A) :
    (tRun 100 [(0, a), (10, b), (300, c)]).2 = [(100, some b), (300, some c)] := rfl

lemma firstIdxP_eq_none (p : TTimer → Bool) :
    ∀ ts : List TTimer, firstIdxP p ts = none ↔ ∀ x ∈ ts, p x = false := by
  intro ts
  induction ts with
  | nil => simp [firstIdxP]
  | cons tm ts ih =>
    by_cases hp : p tm
    · simp [firstIdxP, hp]
    · simp [firstIdxP, hp, Option.map_eq_none', ih]

lemma firstIdxP_eq_some (p : TTimer → Bool) :
    ∀ (ts : List TTimer) (i : Nat), firstIdxP p ts = some i →
      ∃ tm, ts.get? i = some tm ∧ p tm = true := by
  intro ts
  induction ts with
  | nil => intro i h; simp [firstIdxP] at h
  | cons tm ts ih =>
    intro i h
    by_cases hp : p tm
    · simp only [firstIdxP, hp, if_true] at h
      obtain rfl : i = 0 := by exact (Option.some_inj.1 h).symm
      exact ⟨tm, rfl, hp⟩
    · rw [show firstIdxP p (tm :: ts) = (firstIdxP p ts).map (· + 1) from by
        simp [firstIdxP, hp]] at h
      cases hfi : firstIdxP p ts with
      | none =>
        rw [hfi] at h
        simp at h
      | some j =>
        rw [hfi] at h
        obtain rfl : j + 1 = i := by simpa using h
        exact ih j hfi

/-- Number of pending timers in a throttled wrapper's log. -/
def pendTCount (ts : List TTimer) : Nat :=
  (ts.filter (fun tm => decide (tm.status = .pending))).length

lemma pendTCount_le (ts : List TTimer) : pendTCount ts ≤ ts.length :=
  List.length_filter_le _ _

lemma pendTCount_eq_zero (ts : List TTimer) :
    pendTCount ts = 0 ↔ ∀ x ∈ ts, x.status ≠ TStatus.pending := by
  simp [pendTCount, List.length_eq_zero, List.filter_eq_nil_iff]

lemma pendTCount_cons (x : TTimer) (ts : List TTimer) :
    pendTCount (x :: ts) = (if x.status = TStatus.pending then 1 else 0) + pendTCount ts := by
  by_cases hx : x.status = TStatus.pending
  · simp [pendTCount, List.filter_cons, hx]
    omega
  · simp [pendTCount, List.filter_cons, hx]

lemma pendTCount_set_fired (ft : Nat) :
    ∀ (ts : List TTimer) (i : Nat) (tm : TTimer), ts.get? i = some tm →
      tm.status = TStatus.pending →
      pendTCount (ts.set i ⟨ft, .fired⟩) + 1 = pendTCount ts := by
  intro ts
  induction ts with
  | nil => intro i tm h; simp at h
  | cons x ts ih =>
    intro i tm hget hp
    cases i with
    | zero =>
      obtain rfl : x = tm := by simpa using hget
      simp [pendTCount_cons, hp, pendTCount]
    | succ i =>
      have h := ih i tm hget hp
      have hset : (x :: ts).set (i + 1) ⟨ft, .fired⟩ = x :: ts.set i ⟨ft, .fired⟩ := rfl
      rw [hset, pendTCount_cons, pendTCount_cons]
      by_cases hx : x.status = TStatus.pending
      · simp only [hx, if_true]
        omega
      · simp [hx]
        omega

lemma throttled_no_cancel {A : Type} (wait t : Nat) (a : A) (s : TState A)
    (h : ∀ tm ∈ s.timers, tm.status ≠ TStatus.cancelled) :
    ∀ tm ∈ (throttled wait t a s).timers, tm.status ≠ TStatus.cancelled := by
  intro tm hm
  by_cases hs : s.scheduled
  · rw [show throttled wait t a s = { s with new_args := some a } from by
      simp [throttled, hs]] at hm
    exact h tm hm
  · rw [show (throttled wait t a s).timers =
        s.timers ++ [⟨t + newWait wait (t - s.time_of_last_call), .pending⟩] from by
      simp [throttled, hs]] at hm
    rcases List.mem_append.1 hm with hm | hm
    · exact h tm hm
    · simp at hm
      simp [hm]

lemma call_it_no_cancel {A : Type} (ok : Bool) (i : Nat) (s : TState A)
    (h : ∀ tm ∈ s.timers, tm.status ≠ TStatus.cancelled) :
    ∀ tm ∈ (call_it ok i s).1.timers, tm.status ≠ TStatus.cancelled := by
  intro tm hm
  unfold call_it at hm
  cases hget : s.timers.get? i with
  | none =>
    rw [hget] at hm
    exact h tm hm
  | some tm0 =>
    rw [hget] at hm
    by_cases hp : tm0.status = TStatus.pending
    · simp only [hp, if_true] at hm
      rcases List.mem_or_eq_of_mem_set hm with hm | hm
      · exact h tm hm
      · simp [hm]
    · simp only [hp, if_false] at hm
      exact h tm hm

lemma tFireDueFuel_no_cancel {A : Type} (t : Nat) :
    ∀ (fuel : Nat) (s : TState A), (∀ tm ∈ s.timers, tm.status ≠ TStatus.cancelled) →
      ∀ tm ∈ (tFireDueFuel fuel t s).1.timers, tm.status ≠ TStatus.cancelled := by
  intro fuel
  induction fuel with
  | zero => intro s h; exact h
  | succ fuel ih =>
    intro s h
    cases hfi : firstIdxP (fun tm => decide (tm.status = .pending ∧ tm.fireTime ≤ t)) s.timers with
    | none =>
      have hs : tFireDueFuel (fuel + 1) t s = (s, []) := by
        simp only [tFireDueFuel, hfi]
      rw [hs]
      exact h
    | some i =>
      have hs : (tFireDueFuel (fuel + 1) t s).1 = (tFireDueFuel fuel t (call_it true i s).1).1 := by
        simp only [tFireDueFuel, hfi]
      rw [hs]
      exact ih _ (call_it_no_cancel true i s h)

lemma tDrainFuel_no_cancel {A : Type} :
    ∀ (fuel : Nat) (s : TState A), (∀ tm ∈ s.timers, tm.status ≠ TStatus.cancelled) →
      ∀ tm ∈ (tDrainFuel fuel s).1.timers, tm.status ≠ TStatus.cancelled := by
  intro fuel
  induction fuel with
  | zero => intro s h; exact h
  | succ fuel ih =>
    intro s h
    cases hfi : firstIdxP (fun tm => decide (tm.status = .pending)) s.timers with
    | none =>
      have hs : tDrainFuel (fuel + 1) s = (s, []) := by
        simp only [tDrainFuel, hfi]
      rw [hs]
      exact h
    | some i =>
      have hs : (tDrainFuel (fuel + 1) s).1 = (tDrainFuel fuel (call_it true i s).1).1 := by
        simp only [tDrainFuel, hfi]
      rw [hs]
      exact ih _ (call_it_no_cancel true i s h)

lemma tDrainFuel_not_pending {A : Type} :
    ∀ (fuel : Nat) (s : TState A), pendTCount s.timers ≤ fuel →
      ∀ tm ∈ (tDrainFuel fuel s).1.timers, tm.status ≠ TStatus.pending := by
  intro fuel
  induction fuel with
  | zero =>
    intro s h
    exact (pendTCount_eq_zero s.timers).1 (Nat.le_zero.1 h)
  | succ fuel ih =>
    intro s h
    cases hfi : firstIdxP (fun tm => decide (tm.status = .pending)) s.timers with
    | none =>
      have hs : tDrainFuel (fuel + 1) s = (s, []) := by
        simp only [tDrainFuel, hfi]
      rw [hs]
      intro tm hm
      have hx := (firstIdxP_eq_none _ s.timers).1 hfi tm hm
      simpa using hx
    | some i =>
      obtain ⟨tm0, hget, hpb⟩ := firstIdxP_eq_some _ s.timers i hfi
      have hp : tm0.status = TStatus.pending := by simpa using hpb
      have hget' := hget
      rw [List.get?_eq_getElem?] at hget'
      have hcall : (call_it true i s).1.timers = s.timers.set i ⟨tm0.fireTime, .fired⟩ := by
        simp [call_it, hget', hp]
      have hs : (tDrainFuel (fuel + 1) s).1 = (tDrainFuel fuel (call_it true i s).1).1 := by
        simp only [tDrainFuel, hfi]
      rw [hs]
      apply ih
      rw [hcall]
      have hdec := pendTCount_set_fired tm0.fireTime s.timers i tm0 hget hp
      omega

lemma tRunFrom_no_cancel {A : Type} (wait : Nat) :
    ∀ (calls : List (Nat × A)) (s : TState A),
      (∀ tm ∈ s.timers, tm.status ≠ TStatus.cancelled) →
      ∀ tm ∈ (tRunFrom wait s calls).1.timers, tm.status ≠ TStatus.cancelled := by
  intro calls
  induction calls with
  | nil => intro s h; exact tDrainFuel_no_cancel s.timers.length s h
  | cons c rest ih =>
    intro s h
    obtain ⟨t, a⟩ := c
    exact ih _ (throttled_no_cancel wait t a _ (tFireDueFuel_no_cancel t s.timers.length s h))

lemma tRunFrom_not_pending {A : Type} (wait : Nat) :
    ∀ (calls : List (Nat × A)) (s : TState A),
      ∀ tm ∈ (tRunFrom wait s calls).1.timers, tm.status ≠ TStatus.pending := by
  intro calls
  induction calls with
  | nil => intro s; exact tDrainFuel_not_pending s.timers.length s (pendTCount_le s.timers)
  | cons c rest ih =>
    intro s
    obtain ⟨t, a⟩ := c
    exact ih _

/-- C8 — Throttler never cancels: neither a call to `throttled` nor a
timer fire ever moves any timer to the cancelled status (the wrapper
suppresses redundant scheduling only through the `scheduled` flag),
and in a complete run every timer the wrapper created has fired by the
end. -/
theorem throttle_never_cancels {A : Type} :
    (∀ (wait t : Nat) (a : A) (s : TState A),
      (∀ tm ∈ s.timers, tm.status ≠ TStatus.cancelled) →
      ∀ tm ∈ (throttled wait t a s).timers, tm.status ≠ TStatus.cancelled) ∧
    (∀ (ok : Bool) (i : Nat) (s : TState A),
      (∀ tm ∈ s.timers, tm.status ≠ TStatus.cancelled) →
      ∀ tm ∈ (call_it ok i s).1.timers, tm.status ≠ TStatus.cancelled) ∧
    (∀ (wait : Nat) (calls : List (Nat × A)),
      ∀ tm ∈ (tRun wait calls).1.timers, tm.status = TStatus.fired) := by
  refine ⟨throttled_no_cancel, call_it_no_cancel, ?_⟩
  intro wait calls tm hm
  have h1 : tm.status ≠ TStatus.cancelled :=
    tRunFrom_no_cancel wait calls (TState.init A) (by simp [TState.init]) tm hm
  have h2 : tm.status ≠ TStatus.pending := tRunFrom_not_pending wait calls (TState.init A) tm hm
  cases hst : tm.status with
  | pending => exact absurd hst h2
  | fired => rfl
  | cancelled => exact absurd hst h1

/-- C8 witness: the single timer created by a throttled run with one
call at 0 (`wait = 100`) ends fired. -/
theorem throttle_never_cancels_witness :
    (⟨100, .fired⟩ : TTimer).status = TStatus.fired :=
  throttle_never_cancels.2.2 100 [(0, 7)] ⟨100, .fired⟩ (by decide)

lemma tFireDueFuel_stuck {A : Type} (fuel t : Nat) (s : TState A)
    (h : ∀ tm ∈ s.timers, tm.status ≠ TStatus.pending) :
    tFireDueFuel fuel t s = (s, []) := by
  cases fuel with
  | zero => rfl
  | succ fuel =>
    have hfi : firstIdxP (fun tm => decide (tm.status = .pending ∧ tm.fireTime ≤ t)) s.timers
        = none :=
      (firstIdxP_eq_none _ s.timers).2 (fun x hx => by simp [h x hx])
    simp only [tFireDueFuel, hfi]

lemma tDrainFuel_stuck {A : Type} (fuel : Nat) (s : TState A)
    (h : ∀ tm ∈ s.timers, tm.status ≠ TStatus.pending) :
    tDrainFuel fuel s = (s, []) := by
  cases fuel with
  | zero => rfl
  | succ fuel =>
    have hfi : firstIdxP (fun tm => decide (tm.status = .pending)) s.timers = none :=
      (firstIdxP_eq_none _ s.timers).2 (fun x hx => by simp [h x hx])
    simp only [tDrainFuel, hfi]

lemma tRunFrom_wedged {A : Type} (wait : Nat) :
    ∀ (calls : List (Nat × A)) (s : TState A), s.scheduled = true →
      (∀ tm ∈ s.timers, tm.status ≠ TStatus.pending) →
      (tRunFrom wait s calls).2 = [] ∧
      (tRunFrom wait s calls).1.scheduled = true ∧
      (tRunFrom wait s calls).1.timers = s.timers ∧
      (tRunFrom wait s calls).1.new_args = calls.foldl (fun _ c => some c.2) s.new_args := by
  intro calls
  induction calls with
  | nil =>
    intro s hs hnp
    have hd : tDrainFuel s.timers.length s = (s, []) := tDrainFuel_stuck _ s hnp
    refine ⟨?_, ?_, ?_, ?_⟩ <;> simp [tRunFrom, tDrain, hd, hs]
  | cons c rest ih =>
    intro s hs hnp
    obtain ⟨t, a⟩ := c
    have hf : tFireDueFuel s.timers.length t s = (s, []) := tFireDueFuel_stuck _ t s hnp
    have hth : throttled wait t a s = { s with new_args := some a } := by
      simp [throttled, hs]
    have ihh := ih { s with new_args := some a } (by simpa using hs) (by simpa using hnp)
    refine ⟨?_, ?_, ?_, ?_⟩ <;>
      simp [tRunFrom, tFireDue, hf, hth, ihh.1, ihh.2.1, ihh.2.2.1, ihh.2.2.2]

/-- C9 — Throttler wedges after a callback failure: when the pending
timer fires and `fn` raises, `call_it` has already recorded
`time_of_last_call` but never reaches `scheduled = False`, so
`scheduled` stays true and no execution is produced; from any such
state (`scheduled` true, no pending timer), every later call sequence
produces no executions, schedules no timer, and only overwrites the
stored latest arguments — `fn` is never invoked again. -/
theorem throttle_wedges_on_failure {A : Type} :
    (∀ (i : Nat) (s : TState A) (tm : TTimer), s.timers.get? i = some tm →
      tm.status = TStatus.pending → s.scheduled = true →
      (call_it false i s).1.scheduled = true ∧
      (call_it false i s).2 = [] ∧
      (call_it false i s).1.timers = s.timers.set i ⟨tm.fireTime, .fired⟩ ∧
      (call_it false i s).1.time_of_last_call = tm.fireTime) ∧
    (∀ (wait : Nat) (calls : List (Nat × A)) (s : TState A), s.scheduled = true →
      (∀ tm ∈ s.timers, tm.status ≠ TStatus.pending) →
      (tRunFrom wait s calls).2 = [] ∧
      (tRunFrom wait s calls).1.scheduled = true ∧
      (tRunFrom wait s calls).1.timers = s.timers ∧
      (tRunFrom wait s calls).1.new_args = calls.foldl (fun _ c => some c.2) s.new_args) := by
  constructor
  · intro i s tm hget hp hs
    rw [List.get?_eq_getElem?] at hget
    refine ⟨?_, ?_, ?_, ?_⟩ <;> simp [call_it, hget, hp, hs]
  · exact fun wait calls s hs hnp => tRunFrom_wedged wait calls s hs hnp

/-- C9 witness: after the exception-raising fire of the timer at 100
(leaving `scheduled` true and the timer fired), a later call at 300
produces no execution, no new timer, and only replaces the stored
arguments. -/
theorem throttle_wedges_on_failure_witness :
    (call_it false 0 (⟨0, true, some 5, [⟨100, .pending⟩]⟩ : TState Nat)).1.scheduled = true ∧
    (tRunFrom 100 (⟨100, true, some 5, [⟨100, .fired⟩]⟩ : TState Nat) [(300, 7)]).2 = [] ∧
    (tRunFrom 100 (⟨100, true, some 5, [⟨100, .fired⟩]⟩ : TState Nat) [(300, 7)]).1.timers
      = [⟨100, .fired⟩] ∧
    (tRunFrom 100 (⟨100, true, some 5, [⟨100, .fired⟩]⟩ : TState Nat) [(300, 7)]).1.new_args
      = some 7 := by
  have h1 := throttle_wedges_on_failure.1 0 (⟨0, true, some 5, [⟨100, .pending⟩]⟩ : TState Nat)
    ⟨100, .pending⟩ rfl rfl rfl
  have h2 := throttle_wedges_on_failure.2 100 [(300, 7)]
    (⟨100, true, some 5, [⟨100, .fired⟩]⟩ : TState Nat) rfl (by decide)
  exact ⟨h1.1, h2.1, h2.2.2.1, h2.2.2.2⟩
